import Mathlib

/-!
# Verification of the codesift structural matcher core

A shallow embedding, in Lean 4, of the Zig core of the codesift
structural code pattern matcher (matcher source embedded in
`src/zig/sysroot/dlmalloc.c` after the allocator, and
`src/zig/rule_engine.zig`), together with theorems settling the frozen
claims about it.

Strings are modelled as lists of byte values (`List Nat`), so that
"byte-equal" is list equality and lengths are byte counts.  Zig `u32`
fields carry byte offsets and never overflow in the operations modelled
here (only comparisons and copies are performed on them), so they are
modelled as `Nat`.

The SIMD helpers (`isDuplicate`, `isInsideAny`, `overlapsAny`) process
two packed `(start_byte << 32) | end_byte` words per iteration and
reduce with vector-or, followed by a scalar tail over the remainder;
packing is injective for 32-bit fields, so the whole loop denotes an
existential scan of the list with the same scalar predicate, which is
how they are embedded below.
-/

namespace Codesift

/-- Byte encoding of a Lean string literal, used to write kind names and
pattern texts readably. -/
def strBytes (s : String) : List Nat := s.data.map Char.toNat

-- ── Metavariable bindings (matcher.zig) ───────────────────────

/-- MAX_BINDINGS from matcher.zig. -/
def MAX_BINDINGS : Nat := 16

/-- MAX_BINDING_TEXT from matcher.zig. -/
def MAX_BINDING_TEXT : Nat := 256

/-- A single metavariable binding: name (without the `$` prefix, at most
64 bytes in the fixed array), captured text (at most MAX_BINDING_TEXT
bytes), and source location.  The fixed `[64]u8`/`[256]u8` arrays with
explicit lengths are modelled by the byte lists themselves; the length
caps are enforced by `Bindings.bind` exactly where the code checks
them. -/
structure Binding where
  name : List Nat
  text : List Nat
  start_byte : Nat
  end_byte : Nat
deriving DecidableEq, Repr, Inhabited

/-- Fixed-size set of metavariable bindings for one match
(`items[MAX_BINDINGS]` plus `count`), modelled as the list of its first
`count` entries. -/
abbrev Bindings := List Binding

/-- Bindings.get: look up a binding by name, returning its text
(the Zig loop returns the first entry whose name is byte-equal). -/
def Bindings.get (bs : Bindings) (name : List Nat) : Option (List Nat) :=
  match bs.find? (fun b => b.name == name) with
  | some b => some b.text
  | none => none

/-- Bindings.bind: bind a metavariable.  If the name is already bound,
unification: succeed iff the stored text is byte-equal to the new text,
leaving the set unchanged.  Otherwise append a new binding, failing on
a full set, a name longer than 64 bytes, or text longer than
MAX_BINDING_TEXT bytes.  The Zig function mutates `self` and returns
`bool`; here it returns the pair (returned bool, resulting set). -/
def Bindings.bind (bs : Bindings) (name text : List Nat) (s e : Nat) :
    Bool × Bindings :=
  match bs.find? (fun b => b.name == name) with
  | some b => (b.text == text, bs)
  | none =>
    if bs.length ≥ MAX_BINDINGS then (false, bs)
    else if name.length > 64 ∨ text.length > MAX_BINDING_TEXT then (false, bs)
    else (true, bs ++ [⟨name, text, s, e⟩])

/-- Bindings.clone: value copy of the first `count` items (used for
backtracking); in the list model this is the identity. -/
def Bindings.clone (bs : Bindings) : Bindings := bs

-- ── Match result (matcher.zig) ────────────────────────────────

/-- MAX_MATCHES from matcher.zig. -/
def MAX_MATCHES : Nat := 64

/-- A match: byte range, point range, and the bindings captured. -/
structure Match where
  start_byte : Nat
  end_byte : Nat
  start_row : Nat
  start_col : Nat
  end_row : Nat
  end_col : Nat
  bindings : Bindings
deriving DecidableEq, Repr, Inhabited

/-- MatchList (`items[MAX_MATCHES]` plus `count`), modelled as the list
of its first `count` entries. -/
abbrev MatchList := List Match

/-- MatchList.add: append if there is room, otherwise drop silently
(never writes past the fixed-capacity array). -/
def MatchList.add (ml : MatchList) (m : Match) : MatchList :=
  if ml.length < MAX_MATCHES then ml ++ [m] else ml

-- ── SIMD range scans (matcher.zig), embedded by their denotation ──

/-- isDuplicate: does a match with exactly this byte range already
exist in the list? -/
def isDuplicate (ms : MatchList) (s e : Nat) : Bool :=
  ms.any (fun m => m.start_byte == s && m.end_byte == e)

/-- isInsideAny: is the range [s, e) contained in any context range? -/
def isInsideAny (contexts : MatchList) (s e : Nat) : Bool :=
  contexts.any (fun c => c.start_byte ≤ s && e ≤ c.end_byte)

/-- isExactMatch: alias of isDuplicate in the source. -/
def isExactMatch (exclusions : MatchList) (s e : Nat) : Bool :=
  isDuplicate exclusions s e

/-- overlapsAny: does [s, e) overlap any range in the list
(`a_start < b_end and b_start < a_end`)? -/
def overlapsAny (list : MatchList) (s e : Nat) : Bool :=
  list.any (fun b => s < b.end_byte && b.start_byte < e)

-- ── Match-set filters (matcher.zig) ───────────────────────────

/-- filterInside: keep only matches inside any context range. -/
def filterInside (ms : MatchList) (contexts : MatchList) : MatchList :=
  ms.foldl
    (fun res m =>
      if isInsideAny contexts m.start_byte m.end_byte then MatchList.add res m
      else res) []

/-- filterNotInside: keep only matches NOT inside any context range. -/
def filterNotInside (ms : MatchList) (contexts : MatchList) : MatchList :=
  ms.foldl
    (fun res m =>
      if !(isInsideAny contexts m.start_byte m.end_byte) then MatchList.add res m
      else res) []

/-- filterNot: remove matches whose exact byte range occurs in the
exclusion list. -/
def filterNot (ms : MatchList) (exclusions : MatchList) : MatchList :=
  ms.foldl
    (fun res m =>
      if !(isExactMatch exclusions m.start_byte m.end_byte) then MatchList.add res m
      else res) []

/-- intersect: keep matches from `a` that overlap any range in `b`. -/
def intersect (a : MatchList) (b : MatchList) : MatchList :=
  a.foldl
    (fun res m =>
      if overlapsAny b m.start_byte m.end_byte then MatchList.add res m
      else res) []

/-- unionMatches: all of `a`, then items of `b` whose exact byte range
is not already present. -/
def unionMatches (a : MatchList) (b : MatchList) : MatchList :=
  b.foldl
    (fun res m =>
      if !(isDuplicate res m.start_byte m.end_byte) then MatchList.add res m
      else res)
    (a.foldl (fun res m => MatchList.add res m) [])

-- ── Pattern token classification (matcher.zig) ────────────────

/-- The character class accepted after `$` by isMetavar:
`std.ascii.isUpper(c) or c == '_' or std.ascii.isDigit(c)`. -/
def metavarChar (c : Nat) : Bool :=
  (65 ≤ c && c ≤ 90) || c == 95 || (48 ≤ c && c ≤ 57)

/-- std.mem.startsWith on byte lists. -/
def bytesStartWith (l p : List Nat) : Bool :=
  l.take p.length == p

/-- isMetavar: text is `$` followed only by uppercase / underscore /
digit bytes, at least one of them; `$...`-prefixed texts are excluded
up front (they are ellipsis metavariables). -/
def isMetavar (t : List Nat) : Bool :=
  if t.length < 2 then false
  else if t.headD 0 != 36 then false
  else if decide (t.length ≥ 4) && bytesStartWith (t.drop 1) [46, 46, 46] then false
  else (t.drop 1).all metavarChar

/-- metavarName: drop the leading `$`. -/
def metavarName (t : List Nat) : List Nat := t.drop 1

/-- isEllipsis: the text is exactly `...`. -/
def isEllipsis (t : List Nat) : Bool := t == [46, 46, 46]

/-- isEllipsisMetavar: length at least 5, leading `$`, then `...`
(note: the code does NOT constrain what follows `$...`). -/
def isEllipsisMetavar (t : List Nat) : Bool :=
  if t.length < 5 then false
  else t.headD 0 == 36 && bytesStartWith (t.drop 1) [46, 46, 46]

end Codesift

namespace Codesift

-- ── Shared helper lemmas ──────────────────────────────────────

/-- A fold of guarded `MatchList.add` over a list whose filtered part
fits in the remaining capacity is plain filtering. -/
theorem foldl_add_filter (p : Match → Bool) :
    ∀ (l : List Match) (res : MatchList),
      res.length + (l.filter p).length ≤ MAX_MATCHES →
      l.foldl (fun r m => if p m then MatchList.add r m else r) res
        = res ++ l.filter p := by
  intro l
  induction l with
  | nil => intro res _; simp
  | cons m rest ih =>
    intro res h
    cases hp : p m with
    | true =>
      have hflt : (List.filter p (m :: rest)).length
          = (List.filter p rest).length + 1 := by
        simp [List.filter_cons, hp]
      have hlt : res.length < MAX_MATCHES := by omega
      have hadd : MatchList.add res m = res ++ [m] := by
        simp [MatchList.add, hlt]
      simp only [List.foldl_cons, hp, if_pos, hadd]
      rw [ih (res ++ [m]) (by simp; omega)]
      simp [List.filter_cons, hp]
    | false =>
      simp only [List.foldl_cons, hp]
      rw [if_neg (by simp)]
      rw [ih res (by simp [List.filter_cons, hp] at h ⊢; omega)]
      simp [List.filter_cons, hp]

-- ── C1: rebind unification ────────────────────────────────────

/-- C1: for every bindings set and metavariable name already bound (to
a binding `b`), a second bind succeeds iff the new text is byte-equal
to the stored text, and in both cases the stored bindings are left
unchanged. -/
theorem bind_rebind_unifies (bs : Bindings) (name text : List Nat) (s e : Nat)
    (b : Binding) (h : bs.find? (fun x => x.name == name) = some b) :
    ((Bindings.bind bs name text s e).1 = true ↔ b.text = text)
    ∧ (Bindings.bind bs name text s e).2 = bs := by
  refine ⟨?_, ?_⟩ <;> simp [Bindings.bind, h]

/-- Witness for C1 at a concrete rebind: name X bound to "a", rebound
with text "b". -/
theorem bind_rebind_unifies_witness :
    ((Bindings.bind [⟨[88], [97], 0, 1⟩] [88] [98] 0 1).1 = true
        ↔ (Binding.mk [88] [97] 0 1).text = [98])
    ∧ (Bindings.bind [⟨[88], [97], 0, 1⟩] [88] [98] 0 1).2
        = [⟨[88], [97], 0, 1⟩] :=
  bind_rebind_unifies [⟨[88], [97], 0, 1⟩] [88] [98] 0 1
    ⟨[88], [97], 0, 1⟩ (by decide)

-- ── C9: 64-byte cap on the metavariable name ──────────────────

/-- C9: binding a fresh name longer than 64 bytes fails (leaving the
set unchanged) regardless of the text length, while a fresh name of
exactly 64 bytes is accepted when the set has room and the text is
within MAX_BINDING_TEXT. -/
theorem bind_name_length_caps :
    (∀ (bs : Bindings) (name text : List Nat) (s e : Nat),
        (∀ b ∈ bs, b.name.length ≤ 64) → 64 < name.length →
        Bindings.bind bs name text s e = (false, bs))
    ∧ (∀ (bs : Bindings) (name text : List Nat) (s e : Nat),
        bs.find? (fun x => x.name == name) = none →
        bs.length < MAX_BINDINGS → name.length = 64 →
        text.length ≤ MAX_BINDING_TEXT →
        Bindings.bind bs name text s e
          = (true, bs ++ [⟨name, text, s, e⟩])) := by
  constructor
  · intro bs name text s e hinv hlong
    have hfind : bs.find? (fun x => x.name == name) = none := by
      rw [List.find?_eq_none]
      intro x hx
      simp only [beq_iff_eq]
      intro hEq
      have hle := hinv x hx
      rw [hEq] at hle
      omega
    unfold Bindings.bind
    rw [hfind]
    by_cases hc : bs.length ≥ MAX_BINDINGS
    · rw [if_pos hc]
    · rw [if_neg hc, if_pos (Or.inl hlong)]
  · intro bs name text s e hfind hroom hname htext
    unfold Bindings.bind
    rw [hfind, if_neg (by omega), if_neg (by omega)]

/-- Witness for C9: a fresh 65-byte name is rejected even with 1-byte
text; a fresh 64-byte name is accepted. -/
theorem bind_name_length_caps_witness :
    Bindings.bind [] (List.replicate 65 65) [97] 0 1 = (false, [])
    ∧ Bindings.bind [] (List.replicate 64 65) [97] 0 1
        = (true, [] ++ [⟨List.replicate 64 65, [97], 0, 1⟩]) :=
  ⟨bind_name_length_caps.1 [] (List.replicate 65 65) [97] 0 1
      (by intro b hb; simp at hb) (by simp),
   bind_name_length_caps.2 [] (List.replicate 64 65) [97] 0 1 rfl
      (by simp [MAX_BINDINGS]) (by simp) (by simp [MAX_BINDING_TEXT])⟩

end Codesift

namespace Codesift

-- ── C4: metavariable lexical rule ─────────────────────────────

/-- The metavariable lexical rule as the spec words it: `$` then one or
more characters of `[A-Z0-9_]`.  (Spec-side definition, to be compared
with `isMetavar` from the source.) -/
def metavarLexSpec (t : List Nat) : Prop :=
  ∃ rest, t = 36 :: rest ∧ rest ≠ [] ∧ ∀ c ∈ rest, metavarChar c = true

/-- The ellipsis-metavariable lexical rule as the spec words it:
`$...` then one or more characters of `[A-Z0-9_]`.  (Spec-side
definition, to be compared with `isEllipsisMetavar` from the source.) -/
def ellipsisMetavarLexSpec (t : List Nat) : Prop :=
  ∃ rest, t = 36 :: 46 :: 46 :: 46 :: rest ∧ rest ≠ []
    ∧ ∀ c ∈ rest, metavarChar c = true

/-- C4 counterexample: on the text `$...a` the code classifies an
ellipsis-metavariable (it never inspects what follows `$...`), but the
claimed lexical rule requires the tail to be drawn from `[A-Z0-9_]`,
which the lowercase `a` (byte 97) is not. -/
theorem ellipsisMetavar_lex_counterexample :
    ¬ (isEllipsisMetavar [36, 46, 46, 46, 97] = true
        ↔ ellipsisMetavarLexSpec [36, 46, 46, 46, 97]) := by
  intro h
  have h1 : isEllipsisMetavar [36, 46, 46, 46, 97] = true := by decide
  obtain ⟨rest, heq, -, hall⟩ := h.mp h1
  have hrest : [97] = rest := by
    simpa using heq
  subst hrest
  have h97 := hall 97 (by simp)
  simp [metavarChar] at h97

/-- C4 amended: `isMetavar` accepts exactly `$` followed by one or more
bytes of `[A-Z0-9_]`, but `isEllipsisMetavar` accepts exactly `$...`
followed by at least one byte of ANY value (the tail is not
constrained to the metavariable character set). -/
theorem metavar_lex_amended (t : List Nat) :
    (isMetavar t = true ↔ metavarLexSpec t)
    ∧ (isEllipsisMetavar t = true
        ↔ ∃ rest, t = 36 :: 46 :: 46 :: 46 :: rest ∧ rest ≠ []) := by
  constructor
  · constructor
    · intro h
      match t with
      | [] => simp [isMetavar] at h
      | [c] => simp [isMetavar] at h
      | c :: d :: rest =>
        unfold isMetavar at h
        rw [if_neg (by simp)] at h
        split at h
        · exact absurd h (by simp)
        · split at h
          · exact absurd h (by simp)
          · rename_i hhead _
            have hc : c = 36 := by
              simpa using hhead
            subst hc
            refine ⟨d :: rest, rfl, by simp, ?_⟩
            intro x hx
            rw [List.all_eq_true] at h
            exact h x (by simpa using hx)
    · rintro ⟨rest, rfl, hne, hall⟩
      have hnotdots : bytesStartWith rest [46, 46, 46] = false := by
        by_contra hbs
        rw [Bool.not_eq_false] at hbs
        unfold bytesStartWith at hbs
        rw [beq_iff_eq] at hbs
        have h46 : 46 ∈ rest := by
          have hmem : 46 ∈ rest.take (([46, 46, 46] : List Nat).length) := by
            rw [hbs]; simp
          exact List.mem_of_mem_take hmem
        have := hall 46 h46
        simp [metavarChar] at this
      unfold isMetavar
      rw [if_neg (by cases rest with
            | nil => exact absurd rfl hne
            | cons a l => simp)]
      rw [if_neg (by simp)]
      simp only [List.drop_succ_cons, List.drop_zero, hnotdots, Bool.and_false,
        Bool.false_eq_true, if_false]
      exact List.all_eq_true.mpr hall
  · constructor
    · intro h
      match t with
      | [] => simp [isEllipsisMetavar] at h
      | [a] => simp [isEllipsisMetavar] at h
      | [a, b] => simp [isEllipsisMetavar] at h
      | [a, b, c] => simp [isEllipsisMetavar] at h
      | [a, b, c, d] => simp [isEllipsisMetavar] at h
      | a :: b :: c :: d :: e :: rest =>
        unfold isEllipsisMetavar at h
        rw [if_neg (by simp)] at h
        rw [Bool.and_eq_true] at h
        obtain ⟨hhead, hdots⟩ := h
        have ha : a = 36 := by simpa using hhead
        unfold bytesStartWith at hdots
        rw [beq_iff_eq] at hdots
        simp only [List.length_cons, List.take_succ_cons, List.take_zero] at hdots
        obtain ⟨hb, hc, hd⟩ : b = 46 ∧ c = 46 ∧ d = 46 := by
          simpa using hdots
        subst ha hb hc hd
        exact ⟨e :: rest, rfl, by simp⟩
    · rintro ⟨rest, rfl, hne⟩
      unfold isEllipsisMetavar
      rw [if_neg (by cases rest with
            | nil => exact absurd rfl hne
            | cons a l => simp)]
      simp [bytesStartWith]

-- ── C7: inside / not-inside partition ─────────────────────────

/-- C7: `filterInside` keeps exactly the matches contained in some
reference range, `filterNotInside` keeps exactly the rest, and together
they partition the input list (for inputs within the fixed capacity,
which every real MatchList satisfies). -/
theorem filterInside_partition (out refs : MatchList)
    (h : out.length ≤ MAX_MATCHES) :
    filterInside out refs
        = out.filter (fun m => isInsideAny refs m.start_byte m.end_byte)
    ∧ filterNotInside out refs
        = out.filter (fun m => !(isInsideAny refs m.start_byte m.end_byte))
    ∧ (∀ m : Match, isInsideAny refs m.start_byte m.end_byte = true
        ↔ ∃ r ∈ refs, r.start_byte ≤ m.start_byte ∧ m.end_byte ≤ r.end_byte)
    ∧ (∀ m ∈ out,
        (m ∈ filterInside out refs ∧ m ∉ filterNotInside out refs)
        ∨ (m ∉ filterInside out refs ∧ m ∈ filterNotInside out refs))
    ∧ (∀ m : Match,
        m ∈ out ↔ (m ∈ filterInside out refs ∨ m ∈ filterNotInside out refs)) := by
  have e1 : filterInside out refs
      = out.filter (fun m => isInsideAny refs m.start_byte m.end_byte) := by
    unfold filterInside
    rw [foldl_add_filter _ out []
      (by simpa using le_trans (List.length_filter_le _ out) h)]
    simp
  have e2 : filterNotInside out refs
      = out.filter (fun m => !(isInsideAny refs m.start_byte m.end_byte)) := by
    unfold filterNotInside
    rw [foldl_add_filter _ out []
      (by simpa using le_trans (List.length_filter_le _ out) h)]
    simp
  refine ⟨e1, e2, ?_, ?_, ?_⟩
  · intro m
    simp [isInsideAny, List.any_eq_true]
  · intro m hm
    by_cases hp : isInsideAny refs m.start_byte m.end_byte = true
    · left
      constructor
      · rw [e1]; exact List.mem_filter.mpr ⟨hm, hp⟩
      · rw [e2]
        intro hmem
        have := (List.mem_filter.mp hmem).2
        simp [hp] at this
    · right
      constructor
      · rw [e1]
        intro hmem
        exact hp (List.mem_filter.mp hmem).2
      · rw [e2]
        exact List.mem_filter.mpr ⟨hm, by simp [Bool.not_eq_true] at hp ⊢; exact hp⟩
  · intro m
    constructor
    · intro hm
      by_cases hp : isInsideAny refs m.start_byte m.end_byte = true
      · exact Or.inl (by rw [e1]; exact List.mem_filter.mpr ⟨hm, hp⟩)
      · exact Or.inr (by
          rw [e2]
          exact List.mem_filter.mpr ⟨hm, by simp [Bool.not_eq_true] at hp ⊢; exact hp⟩)
    · intro hm
      rcases hm with hm | hm
      · rw [e1] at hm; exact (List.mem_filter.mp hm).1
      · rw [e2] at hm; exact (List.mem_filter.mp hm).1

/-- Witness for C7 at a concrete pair of lists. -/
theorem filterInside_partition_witness :
    (filterInside
        [⟨1, 2, 0, 0, 0, 0, []⟩, ⟨5, 9, 0, 0, 0, 0, []⟩]
        [⟨0, 3, 0, 0, 0, 0, []⟩]
      = List.filter
          (fun m => isInsideAny [⟨0, 3, 0, 0, 0, 0, []⟩] m.start_byte m.end_byte)
          [⟨1, 2, 0, 0, 0, 0, []⟩, ⟨5, 9, 0, 0, 0, 0, []⟩]) := by
  have h := filterInside_partition
    [⟨1, 2, 0, 0, 0, 0, []⟩, ⟨5, 9, 0, 0, 0, 0, []⟩]
    [⟨0, 3, 0, 0, 0, 0, []⟩] (by simp [MAX_MATCHES])
  exact h.1

-- ── C8: intersect(A, A) ───────────────────────────────────────

/-- C8 counterexample: a list holding one zero-width match is NOT
preserved by self-intersection, because a zero-width range does not
overlap itself under `m.start < r.end and r.start < m.end`. -/
theorem intersect_self_counterexample :
    intersect [⟨0, 0, 0, 0, 0, 0, []⟩] [⟨0, 0, 0, 0, 0, 0, []⟩]
      ≠ [⟨0, 0, 0, 0, 0, 0, []⟩] := by
  decide

/-- C8 amended: for every match list whose ranges are all non-empty
(`start_byte < end_byte`), self-intersection preserves the list —
size, order and ranges — exactly (within the fixed capacity, which
every real MatchList satisfies). -/
theorem intersect_self_id (a : MatchList) (hlen : a.length ≤ MAX_MATCHES)
    (hnz : ∀ m ∈ a, m.start_byte < m.end_byte) :
    intersect a a = a := by
  have hall : ∀ m ∈ a, overlapsAny a m.start_byte m.end_byte = true := by
    intro m hm
    rw [overlapsAny, List.any_eq_true]
    refine ⟨m, hm, ?_⟩
    simp [hnz m hm]
  have hfe : a.filter (fun m => overlapsAny a m.start_byte m.end_byte) = a :=
    List.filter_eq_self.mpr (fun m hm => hall m hm)
  unfold intersect
  rw [foldl_add_filter _ a [] (by rw [hfe]; simpa using hlen)]
  rw [hfe]
  simp

/-- Witness for C8 amended at a concrete list. -/
theorem intersect_self_id_witness :
    intersect [⟨0, 2, 0, 0, 0, 0, []⟩, ⟨5, 9, 0, 0, 0, 0, []⟩]
        [⟨0, 2, 0, 0, 0, 0, []⟩, ⟨5, 9, 0, 0, 0, 0, []⟩]
      = [⟨0, 2, 0, 0, 0, 0, []⟩, ⟨5, 9, 0, 0, 0, 0, []⟩] :=
  intersect_self_id _ (by simp [MAX_MATCHES]) (by decide)

end Codesift

namespace Codesift

-- ── Tree-sitter node model (ts_bridge TS-API) ─────────────────

/-- A zero-based (row, col) point. -/
structure Point where
  row : Nat
  col : Nat
deriving DecidableEq, Repr, Inhabited

/-- An AST node as exposed by the TS-API: kind string, source text of
its byte range, byte range, point range, named flag, and the full child
list (named children are the sub-list of children whose named flag is
set, exactly how tree-sitter's namedChild walk relates to child). -/
inductive TSNode where
  | mk (kind : List Nat) (text : List Nat) (sb eb : Nat) (sp ep : Point)
      (named : Bool) (children : List TSNode)
deriving Repr, Inhabited

def TSNode.nodeType : TSNode → List Nat
  | .mk k _ _ _ _ _ _ _ => k

def TSNode.text : TSNode → List Nat
  | .mk _ t _ _ _ _ _ _ => t

def TSNode.startByte : TSNode → Nat
  | .mk _ _ sb _ _ _ _ _ => sb

def TSNode.endByte : TSNode → Nat
  | .mk _ _ _ eb _ _ _ _ => eb

def TSNode.startPoint : TSNode → Point
  | .mk _ _ _ _ sp _ _ _ => sp

def TSNode.endPoint : TSNode → Point
  | .mk _ _ _ _ _ ep _ _ => ep

def TSNode.isNamedNode : TSNode → Bool
  | .mk _ _ _ _ _ _ n _ => n

def TSNode.childList : TSNode → List TSNode
  | .mk _ _ _ _ _ _ _ cs => cs

/-- named children: the children with the named flag. -/
def TSNode.namedChildren (n : TSNode) : List TSNode :=
  n.childList.filter (fun c => c.isNamedNode)

def TSNode.namedChildCount (n : TSNode) : Nat := n.namedChildren.length

def TSNode.namedChild (n : TSNode) (i : Nat) : Option TSNode :=
  n.namedChildren.get? i

def TSNode.childCount (n : TSNode) : Nat := n.childList.length

def TSNode.child (n : TSNode) (i : Nat) : Option TSNode :=
  n.childList.get? i

end Codesift

namespace Codesift

-- ── Structural pattern matcher (matcher.zig) ──────────────────

/-- Kind string of the expression-statement wrapper. -/
def exprStatementKind : List Nat := strBytes "expression_statement"

mutual

/-- matchNode: match a pattern AST node against a source AST node.
The Zig function mutates `bindings` through a pointer and returns
`bool`; here it returns (returned bool, resulting bindings).  The
`matchChildren` helper of the source (its unique caller is the
same-kind branch here) is the separate definition `matchChildren`
below; its body is written out in place so the mutual recursion is
only between matchNode, matchChildSeq and ellipsisScan. -/
def matchNode (pattern source : TSNode) (b : Bindings) (depth : Nat) :
    Bool × Bindings :=
  if _h100 : depth > 100 then (false, b)
  else
    let patText := pattern.text
    if isMetavar patText then
      Bindings.bind b (metavarName patText) source.text source.startByte
        source.endByte
    else if isEllipsis patText then (true, b)
    else if pattern.nodeType == source.nodeType then
      -- matchChildren: no pattern children means the type match is enough
      (if pattern.namedChildCount == 0 then (true, b)
       else matchChildSeq pattern 0 pattern.namedChildCount source 0
         source.namedChildCount b (depth + 1))
    else if pattern.namedChildCount == 0 && source.namedChildCount == 0 then
      (patText == source.text, b)
    else
      match (if pattern.nodeType == exprStatementKind
                && pattern.namedChildCount == 1
             then pattern.namedChild 0 else none) with
      | some inner => matchNode inner source b (depth + 1)
      | none =>
        match (if source.nodeType == exprStatementKind
                  && source.namedChildCount == 1
               then source.namedChild 0 else none) with
        | some inner => matchNode pattern inner b (depth + 1)
        | none => (false, b)
termination_by (4 * (101 - depth) + 3, 0)
decreasing_by
  all_goals simp_wf
  all_goals exact Prod.Lex.left _ _ (by omega)

/-- matchChildSeq: match a sequence of pattern children against source
children; an ellipsis (or ellipsis-metavariable) pattern child may
consume zero or more source children (zero first, then the
`ellipsisScan` loop), a normal child must match the current source
child, with clone/restore backtracking of the bindings. -/
def matchChildSeq (pattern : TSNode) (patIdx patCount : Nat) (source : TSNode)
    (srcIdx srcCount : Nat) (b : Bindings) (depth : Nat) : Bool × Bindings :=
  if _h100 : depth > 100 then (false, b)
  else if patCount ≤ patIdx ∧ srcCount ≤ srcIdx then (true, b)
  else if patCount ≤ patIdx then (false, b)
  else
    match pattern.namedChild patIdx with
    | none => (false, b)
    | some patChild =>
      if isEllipsis patChild.text || isEllipsisMetavar patChild.text then
        match matchChildSeq pattern (patIdx + 1) patCount source srcIdx
            srcCount b (depth + 1) with
        | (true, b1) => (true, b1)
        | (false, b1) =>
          ellipsisScan pattern (patIdx + 1) patCount source srcIdx srcCount b1
            (depth + 1)
      else if srcCount ≤ srcIdx then (false, b)
      else
        match source.namedChild srcIdx with
        | none => (false, b)
        | some srcChild =>
          let saved := Bindings.clone b
          match matchNode patChild srcChild b (depth + 1) with
          | (true, b1) =>
            match matchChildSeq pattern (patIdx + 1) patCount source
                (srcIdx + 1) srcCount b1 (depth + 1) with
            | (true, b2) => (true, b2)
            | (false, _) => (false, saved)
          | (false, _) => (false, saved)
termination_by (4 * (101 - depth), 0)
decreasing_by
  all_goals simp_wf
  all_goals exact Prod.Lex.left _ _ (by omega)

/-- ellipsisScan: the `while (skip < src_count)` loop of matchChildSeq,
trying to let the ellipsis consume skip+1 - srcIdx_0 source children
per iteration; every attempt runs at the caller's depth + 1 (`dp`),
exactly as the loop body does. -/
def ellipsisScan (pattern : TSNode) (patIdxNext patCount : Nat)
    (source : TSNode) (skip srcCount : Nat) (b : Bindings) (dp : Nat) :
    Bool × Bindings :=
  if _h : skip < srcCount then
    match matchChildSeq pattern patIdxNext patCount source (skip + 1) srcCount
        b dp with
    | (true, b1) => (true, b1)
    | (false, b1) =>
      ellipsisScan pattern patIdxNext patCount source (skip + 1) srcCount b1 dp
  else (false, b)
termination_by (4 * (101 - dp) + 1, srcCount - skip)
decreasing_by
  · exact Prod.Lex.left _ _ (by omega)
  · exact Prod.Lex.right _ (by omega)

end

/-- matchChildren from the source: align named children, an empty
pattern child list always matches. -/
def matchChildren (pattern source : TSNode) (b : Bindings) (depth : Nat) :
    Bool × Bindings :=
  if pattern.namedChildCount == 0 then (true, b)
  else matchChildSeq pattern 0 pattern.namedChildCount source 0
    source.namedChildCount b (depth + 1)

end Codesift

namespace Codesift

-- ── Search over the source tree (matcher.zig) ─────────────────

/-- The match record constructed at each add site of the search and
collect walks (byte range, point range, bindings). -/
def matchFromNode (n : TSNode) (bs : Bindings) : Match :=
  ⟨n.startByte, n.endByte, n.startPoint.row, n.startPoint.col,
   n.endPoint.row, n.endPoint.col, bs⟩

/-- unwrapProgramRoot: skip the program root wrapper when it has a
single named child. -/
def unwrapProgramRoot (node : TSNode) : TSNode :=
  if node.nodeType == strBytes "program" && node.namedChildCount == 1 then
    match node.namedChild 0 with
    | some inner => inner
    | none => node
  else node

/-- searchMatches, re-parameterized on the remaining recursion budget
`gas = 201 - depth` so that the recursion is structural: the source
guard `depth > 200` is exactly `gas = 0`, and every recursive call at
`depth + 1` is one at `gas - 1`.  The `searchMatches` wrapper below
restores the source signature. -/
def searchMatchesGas : Nat → TSNode → TSNode → MatchList → MatchList
  | 0, _, _, ml => ml
  | gas + 1, patternRoot, sourceRoot, ml =>
    let pat := unwrapProgramRoot patternRoot
    let r := matchNode pat sourceRoot [] 0
    let ml1 :=
      if r.1 then
        if isDuplicate ml sourceRoot.startByte sourceRoot.endByte then ml
        else MatchList.add ml (matchFromNode sourceRoot r.2)
      else ml
    sourceRoot.namedChildren.foldl
      (fun acc c => searchMatchesGas gas patternRoot c acc) ml1

/-- searchMatches: walk the whole source tree (pre-order, named
children) and collect every node matched by the (program-unwrapped)
pattern, deduplicating by exact byte range. -/
def searchMatches (patternRoot sourceRoot : TSNode) (ml : MatchList)
    (depth : Nat) : MatchList :=
  searchMatchesGas (201 - depth) patternRoot sourceRoot ml

end Codesift

namespace Codesift

-- ── C2: search output is deduped and capacity-capped ──────────

/-- No two matches of the list share the same (start_byte, end_byte)
pair. -/
def rangesDedup (ml : MatchList) : Prop :=
  (ml.map (fun m => (m.start_byte, m.end_byte))).Nodup

/-- isDuplicate answers false exactly when no stored match has this
byte range. -/
theorem isDuplicate_false_iff (ml : MatchList) (s e : Nat) :
    isDuplicate ml s e = false
      ↔ ∀ m ∈ ml, ¬(m.start_byte = s ∧ m.end_byte = e) := by
  rw [isDuplicate, List.any_eq_false]
  constructor
  · intro h m hm hc
    exact absurd (by simp [hc.1, hc.2] :
      (m.start_byte == s && m.end_byte == e) = true) (h m hm)
  · intro h m hm hc
    rw [Bool.and_eq_true, beq_iff_eq, beq_iff_eq] at hc
    exact h m hm hc

/-- The guarded add step of the search walk preserves the capacity
bound, the range dedup invariant, and full lists. -/
theorem searchStep_inv (ml : MatchList) (sb eb : Nat) (m : Match)
    (hsb : m.start_byte = sb) (heb : m.end_byte = eb)
    (hlen : ml.length ≤ MAX_MATCHES) (hdedup : rangesDedup ml) :
    ((if isDuplicate ml sb eb then ml
      else MatchList.add ml m).length ≤ MAX_MATCHES)
    ∧ rangesDedup (if isDuplicate ml sb eb then ml
        else MatchList.add ml m)
    ∧ (ml.length = MAX_MATCHES →
        (if isDuplicate ml sb eb then ml
         else MatchList.add ml m) = ml) := by
  by_cases hdup : isDuplicate ml sb eb = true
  · simp [hdup, hlen, hdedup]
  · rw [Bool.not_eq_true] at hdup
    simp only [hdup, Bool.false_eq_true, if_false]
    unfold MatchList.add
    by_cases hfull : ml.length < MAX_MATCHES
    · rw [if_pos hfull]
      refine ⟨by simp; omega, ?_, by intro h; omega⟩
      unfold rangesDedup at hdedup ⊢
      rw [List.map_append, List.nodup_append]
      refine ⟨hdedup, by simp, ?_⟩
      intro x hx hx2
      simp only [List.map_cons, List.map_nil, List.mem_singleton] at hx2
      subst hx2
      rw [List.mem_map] at hx
      obtain ⟨m', hm', hEq⟩ := hx
      rw [isDuplicate_false_iff] at hdup
      refine hdup m' hm' ⟨?_, ?_⟩
      · have h1 := congrArg Prod.fst hEq
        simpa [hsb] using h1
      · have h2 := congrArg Prod.snd hEq
        simpa [heb] using h2
    · rw [if_neg hfull]
      exact ⟨hlen, hdedup, fun _ => rfl⟩

/-- The child fold of the search walk preserves the invariants, given
that one gas-smaller search call does. -/
theorem searchFold_inv (gas : Nat) (p : TSNode)
    (ih : ∀ (s : TSNode) (ml : MatchList),
        ml.length ≤ MAX_MATCHES → rangesDedup ml →
        (searchMatchesGas gas p s ml).length ≤ MAX_MATCHES
        ∧ rangesDedup (searchMatchesGas gas p s ml)
        ∧ (ml.length = MAX_MATCHES → searchMatchesGas gas p s ml = ml)) :
    ∀ (cs : List TSNode) (ml : MatchList),
      ml.length ≤ MAX_MATCHES → rangesDedup ml →
      ((cs.foldl (fun acc c => searchMatchesGas gas p c acc) ml).length
          ≤ MAX_MATCHES
      ∧ rangesDedup (cs.foldl (fun acc c => searchMatchesGas gas p c acc) ml)
      ∧ (ml.length = MAX_MATCHES →
          cs.foldl (fun acc c => searchMatchesGas gas p c acc) ml = ml)) := by
  intro cs
  induction cs with
  | nil => intro ml h1 h2; exact ⟨h1, h2, fun _ => rfl⟩
  | cons c rest ihl =>
    intro ml h1 h2
    simp only [List.foldl_cons]
    obtain ⟨g1, g2, g3⟩ := ih c ml h1 h2
    obtain ⟨r1, r2, _⟩ := ihl (searchMatchesGas gas p c ml) g1 g2
    refine ⟨r1, r2, ?_⟩
    intro hfull
    rw [g3 hfull]
    exact (ihl ml h1 h2).2.2 hfull

/-- searchMatchesGas preserves the invariants for every gas budget. -/
theorem searchMatchesGas_inv (gas : Nat) :
    ∀ (p s : TSNode) (ml : MatchList),
      ml.length ≤ MAX_MATCHES → rangesDedup ml →
      (searchMatchesGas gas p s ml).length ≤ MAX_MATCHES
      ∧ rangesDedup (searchMatchesGas gas p s ml)
      ∧ (ml.length = MAX_MATCHES → searchMatchesGas gas p s ml = ml) := by
  induction gas with
  | zero =>
    intro p s ml h1 h2
    exact ⟨h1, h2, fun _ => rfl⟩
  | succ gas ih =>
    intro p s ml h1 h2
    simp only [searchMatchesGas]
    by_cases hr : (matchNode (unwrapProgramRoot p) s [] 0).1 = true
    · simp only [hr, if_true]
      obtain ⟨a1, a2, a3⟩ := searchStep_inv ml s.startByte s.endByte
        (matchFromNode s (matchNode (unwrapProgramRoot p) s [] 0).2) rfl rfl
        h1 h2
      obtain ⟨f1, f2, f3⟩ := searchFold_inv gas p (ih p) s.namedChildren _ a1 a2
      refine ⟨f1, f2, ?_⟩
      intro hfull
      rw [a3 hfull] at f3 ⊢
      exact (searchFold_inv gas p (ih p) s.namedChildren ml h1 h2).2.2 hfull
    · rw [Bool.not_eq_true] at hr
      simp only [hr, Bool.false_eq_true, if_false]
      exact searchFold_inv gas p (ih p) s.namedChildren ml h1 h2

/-- C2: for every pattern, source tree and well-formed starting list,
the search result never exceeds MAX_MATCHES entries, contains no two
matches with the same (start_byte, end_byte) pair, and once the list is
full (64 entries) further candidates are dropped without any write. -/
theorem searchMatches_bounded_dedup (p s : TSNode) (ml : MatchList)
    (depth : Nat) (h1 : ml.length ≤ MAX_MATCHES) (h2 : rangesDedup ml) :
    (searchMatches p s ml depth).length ≤ MAX_MATCHES
    ∧ rangesDedup (searchMatches p s ml depth)
    ∧ (ml.length = MAX_MATCHES → searchMatches p s ml depth = ml) :=
  searchMatchesGas_inv (201 - depth) p s ml h1 h2

/-- Concrete source and pattern trees for the C2 witness. -/
def w2src : TSNode :=
  .mk (strBytes "program") (strBytes "x") 0 1 ⟨0, 0⟩ ⟨0, 1⟩ true
    [.mk (strBytes "identifier") (strBytes "x") 0 1 ⟨0, 0⟩ ⟨0, 1⟩ true []]

def w2pat : TSNode :=
  .mk (strBytes "identifier") (strBytes "$X") 0 2 ⟨0, 0⟩ ⟨0, 2⟩ true []

/-- Witness for C2 at a concrete search from an empty list. -/
theorem searchMatches_bounded_dedup_witness :
    (searchMatches w2pat w2src [] 0).length ≤ MAX_MATCHES
    ∧ rangesDedup (searchMatches w2pat w2src [] 0)
    ∧ (([] : MatchList).length = MAX_MATCHES →
        searchMatches w2pat w2src [] 0 = []) :=
  searchMatches_bounded_dedup w2pat w2src [] 0 (by simp)
    (by simp [rangesDedup])

end Codesift

namespace Codesift

-- ── C3: matchNode on ellipsis tokens ──────────────────────────

/-- Concrete pattern leaf whose text is the ellipsis-metavariable
`$...A`. -/
def c3pat : TSNode :=
  .mk (strBytes "identifier") (strBytes "$...A") 0 5 ⟨0, 0⟩ ⟨0, 5⟩ true []

/-- Concrete source leaf of a different kind (`number`, text `1`). -/
def c3src : TSNode :=
  .mk (strBytes "number") (strBytes "1") 0 1 ⟨0, 0⟩ ⟨0, 1⟩ true []

/-- C3 counterexample: the pattern node text `$...A` IS an
ellipsis-metavariable, yet matchNode does not return true regardless of
the source node — on a source leaf of a different kind it falls through
to the leaf text comparison and fails.  (matchNode special-cases only
the plain ellipsis `...`; ellipsis-metavariables are handled in
matchChildSeq.) -/
theorem matchNode_ellipsisMetavar_counterexample :
    isEllipsisMetavar c3pat.text = true
    ∧ (matchNode c3pat c3src [] 0).1 = false := by
  constructor
  · decide
  · unfold matchNode
    decide

/-- C3 amended: for every pattern node whose text is the ellipsis token
`...` (and below the depth cap), matchNode returns true and leaves the
bindings untouched, regardless of the source node; ellipsis-metavariable
texts `$...NAME` take no such shortcut in matchNode. -/
theorem matchNode_ellipsis_true (pattern source : TSNode) (b : Bindings)
    (depth : Nat) (hdepth : depth ≤ 100)
    (htext : pattern.text = [46, 46, 46]) :
    matchNode pattern source b depth = (true, b) := by
  unfold matchNode
  rw [dif_neg (by omega)]
  simp only [htext]
  rw [if_neg (by decide)]
  rw [if_pos (by decide)]

/-- Witness for C3 amended: a concrete ellipsis pattern leaf against a
concrete source leaf. -/
theorem matchNode_ellipsis_true_witness :
    matchNode (.mk (strBytes "identifier") [46, 46, 46] 0 3 ⟨0, 0⟩ ⟨0, 3⟩
        true []) c3src [] 0 = (true, []) :=
  matchNode_ellipsis_true _ c3src [] 0 (by omega) rfl

end Codesift

namespace Codesift

-- ── Sibling matching (matcher.zig) ────────────────────────────

/-- Size bound used for structural termination of the tree search. -/
theorem sizeOf_childList_lt (n : TSNode) : sizeOf n.childList < sizeOf n := by
  cases n with
  | mk k t sb eb sp ep nm cs => simp [TSNode.childList]

/-- A filtered list is no larger than the list (sizeOf). -/
theorem sizeOf_filter_le (p : TSNode → Bool) (l : List TSNode) :
    sizeOf (l.filter p) ≤ sizeOf l := by
  induction l with
  | nil => simp
  | cons a l ih =>
    have hsz : sizeOf (a :: l) = 1 + sizeOf a + sizeOf l := by simp
    rcases Bool.eq_false_or_eq_true (p a) with h | h
    · rw [List.filter_cons, if_pos h]
      have hsz2 : sizeOf (a :: List.filter p l)
          = 1 + sizeOf a + sizeOf (List.filter p l) := by simp
      omega
    · rw [List.filter_cons, if_neg (by simp [h])]
      omega

theorem sizeOf_namedChildren_lt (n : TSNode) :
    sizeOf n.namedChildren < sizeOf n :=
  lt_of_le_of_lt (sizeOf_filter_le _ _) (sizeOf_childList_lt n)

/-- Result of findNodeAtRange, keeping the sibling context that the
real tree-sitter node handle carries through its parent pointer:
either the searched root itself matched (a tree root has no named
siblings), or a descendant matched, with its preceding and following
named siblings in source order. -/
inductive FindRes where
  | self : FindRes
  | deep (left : List TSNode) (node : TSNode) (right : List TSNode) : FindRes
deriving Repr, Inhabited

def FindRes.leftSibs : FindRes → List TSNode
  | .self => []
  | .deep l _ _ => l

def FindRes.rightSibs : FindRes → List TSNode
  | .self => []
  | .deep _ _ r => r

mutual

/-- findNodeAtRange: walk the tree to the node with exactly the target
byte range; the child loop recurses into any named child whose range
covers the target and keeps scanning when the recursion finds
nothing. -/
def findNodeAtRange (root : TSNode) (ts te : Nat) (depth : Nat) :
    Option FindRes :=
  if depth > 200 then none
  else if root.startByte == ts && root.endByte == te then some .self
  else findInChildren root.namedChildren [] ts te depth
termination_by sizeOf root
decreasing_by
  exact sizeOf_namedChildren_lt root

/-- The `while (i < root.namedChildCount())` loop of findNodeAtRange,
carrying the already-scanned left siblings. -/
def findInChildren (cs : List TSNode) (leftAcc : List TSNode) (ts te : Nat)
    (depth : Nat) : Option FindRes :=
  match cs with
  | [] => none
  | c :: rest =>
    if c.startByte ≤ ts && te ≤ c.endByte then
      match findNodeAtRange c ts te (depth + 1) with
      | some .self => some (.deep leftAcc c rest)
      | some (.deep l n r) => some (.deep l n r)
      | none => findInChildren rest (leftAcc ++ [c]) ts te depth
    else findInChildren rest (leftAcc ++ [c]) ts te depth
termination_by sizeOf cs
decreasing_by
  all_goals
    have h2 : sizeOf (c :: rest) = 1 + sizeOf c + sizeOf rest := by simp
    omega

end

set_option linter.unusedVariables false in
/-- The `while (current.prevNamedSibling())` loop: the nearest left
sibling is the last of the left-sibling list, and stepping to it drops
the last entry. -/
def prevSibLoop (ls : List TSNode) (ml : MatchList) : MatchList :=
  match h : ls.getLast? with
  | none => ml
  | some sib => prevSibLoop ls.dropLast (MatchList.add ml (matchFromNode sib []))
termination_by ls.length
decreasing_by
  have hne : ls ≠ [] := by
    intro hnil
    rw [hnil] at h
    simp at h
  have hpos : 0 < ls.length := List.length_pos.mpr hne
  rw [List.length_dropLast]
  omega

/-- The `while (current.nextNamedSibling())` loop: the nearest right
sibling is the head of the right-sibling list. -/
def nextSibLoop (rs : List TSNode) (ml : MatchList) : MatchList :=
  match rs with
  | [] => ml
  | sib :: rest => nextSibLoop rest (MatchList.add ml (matchFromNode sib []))

/-- collectPrecedingSiblings: locate the node at the byte range, then
emit its preceding named siblings nearest-first. -/
def collectPrecedingSiblings (sourceRoot : TSNode) (ns ne : Nat)
    (ml : MatchList) : MatchList :=
  match findNodeAtRange sourceRoot ns ne 0 with
  | none => ml
  | some res => prevSibLoop res.leftSibs ml

/-- collectFollowingSiblings: locate the node at the byte range, then
emit its following named siblings nearest-first. -/
def collectFollowingSiblings (sourceRoot : TSNode) (ns ne : Nat)
    (ml : MatchList) : MatchList :=
  match findNodeAtRange sourceRoot ns ne 0 with
  | none => ml
  | some res => nextSibLoop res.rightSibs ml

end Codesift

namespace Codesift

-- ── C10: sibling emission order ───────────────────────────────

/-- Adding below capacity is plain append. -/
theorem MatchList_add_eq_append (ml : MatchList) (m : Match)
    (h : ml.length < MAX_MATCHES) : MatchList.add ml m = ml ++ [m] := by
  unfold MatchList.add
  rw [if_pos h]

/-- prevSibLoop emits the left-sibling list reversed: nearest sibling
first, farthest last. -/
theorem prevSibLoop_eq (ls : List TSNode) (ml : MatchList)
    (h : ml.length + ls.length ≤ MAX_MATCHES) :
    prevSibLoop ls ml
      = ml ++ ls.reverse.map (fun sib => matchFromNode sib []) := by
  induction ls using List.reverseRecOn generalizing ml with
  | nil => simp [prevSibLoop]
  | append_singleton init last ih =>
    have hlt : ml.length < MAX_MATCHES := by
      simp at h
      omega
    rw [prevSibLoop]
    split
    · rename_i heq
      simp at heq
    · rename_i sib heq
      have hsib : last = sib := by simpa using heq
      subst hsib
      rw [List.dropLast_concat]
      rw [MatchList_add_eq_append ml _ hlt]
      rw [ih _ (by simp at h ⊢; omega)]
      simp

/-- nextSibLoop emits the right-sibling list in source order: nearest
sibling first. -/
theorem nextSibLoop_eq (rs : List TSNode) (ml : MatchList)
    (h : ml.length + rs.length ≤ MAX_MATCHES) :
    nextSibLoop rs ml = ml ++ rs.map (fun sib => matchFromNode sib []) := by
  induction rs generalizing ml with
  | nil => simp [nextSibLoop]
  | cons sib rest ih =>
    simp only [nextSibLoop]
    rw [MatchList_add_eq_append ml _ (by simp at h; omega)]
    rw [ih _ (by simp at h ⊢; omega)]
    simp

/-- C10: when the byte range locates a node, collectPrecedingSiblings
emits that node's preceding named siblings nearest-first (reverse
source order) and collectFollowingSiblings emits the following named
siblings nearest-first (source order); shown for sibling counts within
the fixed MatchList capacity. -/
theorem collect_siblings_order (sourceRoot : TSNode) (ns ne : Nat)
    (res : FindRes) (h : findNodeAtRange sourceRoot ns ne 0 = some res)
    (hl : res.leftSibs.length ≤ MAX_MATCHES)
    (hr : res.rightSibs.length ≤ MAX_MATCHES) :
    collectPrecedingSiblings sourceRoot ns ne []
        = res.leftSibs.reverse.map (fun sib => matchFromNode sib [])
    ∧ collectFollowingSiblings sourceRoot ns ne []
        = res.rightSibs.map (fun sib => matchFromNode sib []) := by
  constructor
  · unfold collectPrecedingSiblings
    rw [h]
    show prevSibLoop res.leftSibs []
      = res.leftSibs.reverse.map (fun sib => matchFromNode sib [])
    rw [prevSibLoop_eq _ _ (by simpa using hl)]
    simp
  · unfold collectFollowingSiblings
    rw [h]
    show nextSibLoop res.rightSibs []
      = res.rightSibs.map (fun sib => matchFromNode sib [])
    rw [nextSibLoop_eq _ _ (by simpa using hr)]
    simp

/-- Concrete nodes for the C10 witness: four named siblings, target is
the third. -/
def w10a : TSNode := .mk (strBytes "stmt") (strBytes "aa") 0 2 ⟨0, 0⟩ ⟨0, 2⟩ true []
def w10b : TSNode := .mk (strBytes "stmt") (strBytes "bb") 2 4 ⟨0, 2⟩ ⟨0, 4⟩ true []
def w10t : TSNode := .mk (strBytes "stmt") (strBytes "tt") 4 6 ⟨0, 4⟩ ⟨0, 6⟩ true []
def w10d : TSNode := .mk (strBytes "stmt") (strBytes "dd") 6 8 ⟨0, 6⟩ ⟨0, 8⟩ true []
def w10root : TSNode :=
  .mk (strBytes "program") (strBytes "aabbttdd") 0 8 ⟨0, 0⟩ ⟨0, 8⟩ true
    [w10a, w10b, w10t, w10d]

/-- Witness for C10 at the concrete tree: preceding siblings come out
nearest-first ([b, a]), following siblings in source order ([d]). -/
theorem collect_siblings_order_witness :
    collectPrecedingSiblings w10root 4 6 []
        = ((FindRes.deep [w10a, w10b] w10t [w10d]).leftSibs.reverse.map
            (fun sib => matchFromNode sib []))
    ∧ collectFollowingSiblings w10root 4 6 []
        = ((FindRes.deep [w10a, w10b] w10t [w10d]).rightSibs.map
            (fun sib => matchFromNode sib [])) := by
  have h : findNodeAtRange w10root 4 6 0
      = some (.deep [w10a, w10b] w10t [w10d]) := by
    rw [findNodeAtRange]
    rw [if_neg (by omega)]
    rw [if_neg (by simp [w10root, TSNode.startByte, TSNode.endByte])]
    have hnc : w10root.namedChildren = [w10a, w10b, w10t, w10d] := by
      simp [w10root, TSNode.namedChildren, TSNode.childList, w10a, w10b, w10t,
        w10d, TSNode.isNamedNode]
    rw [hnc]
    rw [findInChildren]
    rw [if_neg (by simp [w10a, TSNode.startByte, TSNode.endByte])]
    rw [findInChildren]
    rw [if_neg (by simp [w10b, TSNode.startByte, TSNode.endByte])]
    rw [findInChildren]
    rw [if_pos (by simp [w10t, TSNode.startByte, TSNode.endByte])]
    rw [findNodeAtRange]
    rw [if_neg (by omega)]
    rw [if_pos (by simp [w10t, TSNode.startByte, TSNode.endByte])]
    simp
  exact collect_siblings_order w10root 4 6 _ h
    (by norm_num [FindRes.leftSibs, MAX_MATCHES])
    (by norm_num [FindRes.rightSibs, MAX_MATCHES])

end Codesift

namespace Codesift

-- ── Rule engine: constants and data (rule_engine.zig) ─────────

def MAX_RULES : Nat := 32
def MAX_RULE_NODES : Nat := 128
def MAX_CONSTRAINTS : Nat := 16
def MAX_TRANSFORMS : Nat := 16
def MAX_CHILDREN : Nat := 64

def OP_PATTERN : Nat := 0x01
def OP_KIND : Nat := 0x02
def OP_REGEX : Nat := 0x03
def OP_NTH_CHILD : Nat := 0x04
def OP_ALL : Nat := 0x10
def OP_ANY : Nat := 0x11
def OP_NOT : Nat := 0x12
def OP_INSIDE : Nat := 0x13
def OP_HAS : Nat := 0x14
def OP_FOLLOWS : Nat := 0x15
def OP_PRECEDES : Nat := 0x16
def OP_MATCHES : Nat := 0x17
def OP_FIX : Nat := 0x20
def OP_CONSTRAINT : Nat := 0x30
def OP_TRANSFORM : Nat := 0x31
def OP_STOPBY_END : Nat := 0x40
def OP_STOPBY_NEIGHBOR : Nat := 0x41
def OP_STOPBY_RULE : Nat := 0x42
def OP_RULE : Nat := 0x50
def OP_RULESET : Nat := 0xFF

/-- Rule node tags (`matches` is spelled op_matches, `not` op_not as in
the source, since both collide with keywords). -/
inductive RuleNodeTag where
  | pattern | kind | regex | nth_child | all | any | op_not
  | inside | has | follows | precedes | op_matches
deriving DecidableEq, Repr, Inhabited

/-- stopBy variants (`end` is spelled stopEnd). -/
inductive StopBy where
  | neighbor | stopEnd | rule
deriving DecidableEq, Repr, Inhabited

structure RuleNode where
  tag : RuleNodeTag := .pattern
  str_offset : Nat := 0
  str_len : Nat := 0
  index : Nat := 0
  children_start : Nat := 0
  children_count : Nat := 0
  child : Nat := 0
  stop_by : StopBy := .neighbor
  stop_by_rule : Nat := 0
  ref_index : Nat := 0
  compiled_handle : Nat := 0
deriving DecidableEq, Repr, Inhabited

/-- The external regex engine (pyregex): compilation may fail; a
compiled regex is consumed only through the presence of a find result
(`find(text) catch null != null`), so it is modelled as that Boolean
test directly. -/
structure RegexEngine where
  compile : List Nat → Option (List Nat → Bool)

structure Constraint where
  metavar_offset : Nat := 0
  metavar_len : Nat := 0
  constraint_type : Nat := 0
  pattern_offset : Nat := 0
  pattern_len : Nat := 0
  compiled_regex : Option (List Nat → Bool) := none
deriving Inhabited

structure Transform where
  source_offset : Nat := 0
  source_len : Nat := 0
  op : Nat := 0
  arg_offset : Nat := 0
  arg_len : Nat := 0
deriving DecidableEq, Repr, Inhabited

structure Rule where
  id_offset : Nat := 0
  id_len : Nat := 0
  severity : Nat := 0
  message_offset : Nat := 0
  message_len : Nat := 0
  language : Nat := 1
  root_node : Nat := 0
  fix_offset : Nat := 0
  fix_len : Nat := 0
  constraints_start : Nat := 0
  constraints_count : Nat := 0
  transforms_start : Nat := 0
  transforms_count : Nat := 0
deriving DecidableEq, Repr, Inhabited

/-- The decoded ruleset; counts are the list lengths.  childrenPool
models the module-level `children_pool` array as filled by the most
recent decode (decode resets `children_pool_count` to 0 up front). -/
structure CompiledRuleset where
  rules : List Rule := []
  nodes : List RuleNode := []
  constraints : List Constraint := []
  transforms : List Transform := []
  childrenPool : List Nat := []
  bytecode : List Nat := []
deriving Inhabited

-- ── Bytecode decoder (rule_engine.zig) ────────────────────────

structure Decoder where
  data : List Nat
  pos : Nat
deriving Repr

def Decoder.readU8 (d : Decoder) : Option (Nat × Decoder) :=
  if d.pos ≥ d.data.length then none
  else some (d.data.getD d.pos 0, ⟨d.data, d.pos + 1⟩)

def Decoder.readU16 (d : Decoder) : Option (Nat × Decoder) :=
  if d.pos + 2 > d.data.length then none
  else some (d.data.getD d.pos 0 + 256 * d.data.getD (d.pos + 1) 0,
    ⟨d.data, d.pos + 2⟩)

def Decoder.readU32 (d : Decoder) : Option (Nat × Decoder) :=
  if d.pos + 4 > d.data.length then none
  else some (d.data.getD d.pos 0 + 256 * d.data.getD (d.pos + 1) 0
      + 65536 * d.data.getD (d.pos + 2) 0
      + 16777216 * d.data.getD (d.pos + 3) 0,
    ⟨d.data, d.pos + 4⟩)

/-- readString: u16 length, then that many raw bytes; the stored offset
is the position right after the length field. -/
def Decoder.readString (d : Decoder) : Option ((Nat × Nat) × Decoder) :=
  match d.readU16 with
  | none => none
  | some (len, d1) =>
    if d1.pos + len > d1.data.length then none
    else some ((d1.pos, len), ⟨d1.data, d1.pos + len⟩)

def Decoder.getString (d : Decoder) (off len : Nat) : List Nat :=
  if off + len > d.data.length then []
  else (d.data.drop off).take len

/-- decodeRuleNode, structural on an explicit recursion-depth budget
(the source recursion is bounded by the nesting depth of the bytecode;
every theorem below supplies a budget larger than its input's nesting).
An all/any node records `children_start := children_pool_count` BEFORE
decoding its children, and each child index is appended to the shared
pool only AFTER that child's (sub)tree has been decoded — faithfully
reproducing the source's pool layout, including for nested all/any. -/
def decodeRuleNode : Nat → Decoder → CompiledRuleset →
    Option (Nat × Decoder × CompiledRuleset)
  | 0, _, _ => none
  | fuel + 1, dec, rs =>
    if rs.nodes.length ≥ MAX_RULE_NODES then none
    else
      let node_idx := rs.nodes.length
      let rs0 := { rs with nodes := rs.nodes ++ [default] }
      match dec.readU8 with
      | none => none
      | some (op, dec1) =>
        if op == OP_PATTERN || op == OP_KIND || op == OP_REGEX then
          match dec1.readString with
          | none => none
          | some ((off, len), dec2) =>
            let node : RuleNode :=
              { tag := if op == OP_PATTERN then .pattern
                       else if op == OP_KIND then .kind else .regex,
                str_offset := off, str_len := len }
            some (node_idx, dec2,
              { rs0 with nodes := rs0.nodes.set node_idx node })
        else if op == OP_NTH_CHILD then
          match dec1.readU32 with
          | none => none
          | some (idx, dec2) =>
            let nd : RuleNode :=
              { tag := .nth_child, index := idx }
            some (node_idx, dec2, { rs0 with nodes := rs0.nodes.set node_idx nd })
        else if op == OP_ALL || op == OP_ANY then
          match dec1.readU16 with
          | none => none
          | some (count, dec2) =>
            let cstart := rs0.childrenPool.length
            match
              (List.range count).foldlM
                (fun (acc : Decoder × CompiledRuleset) _ =>
                  if acc.2.childrenPool.length ≥ MAX_CHILDREN then none
                  else
                    match decodeRuleNode fuel acc.1 acc.2 with
                    | none => none
                    | some (cidx, d2, r2) =>
                      some (d2, { r2 with
                        childrenPool := r2.childrenPool ++ [cidx] }))
                (dec2, rs0)
            with
            | none => none
            | some (dec3, rs3) =>
              let nd : RuleNode :=
                { tag := if op == OP_ALL then .all else .any, children_start := cstart, children_count := count }
              some (node_idx, dec3, { rs3 with nodes := rs3.nodes.set node_idx nd })
        else if op == OP_NOT then
          match decodeRuleNode fuel dec1 rs0 with
          | none => none
          | some (cidx, dec2, rs2) =>
            let nd : RuleNode :=
              { tag := .op_not, child := cidx }
            some (node_idx, dec2, { rs2 with nodes := rs2.nodes.set node_idx nd })
        else if op == OP_INSIDE || op == OP_HAS || op == OP_FOLLOWS
            || op == OP_PRECEDES then
          let tag : RuleNodeTag :=
            if op == OP_INSIDE then .inside
            else if op == OP_HAS then .has
            else if op == OP_FOLLOWS then .follows else .precedes
          match dec1.readU8 with
          | none => none
          | some (sb, dec2) =>
            if sb == OP_STOPBY_END then
              match decodeRuleNode fuel dec2 rs0 with
              | none => none
              | some (cidx, dec3, rs3) =>
                let nd : RuleNode :=
                  { tag := tag, stop_by := .stopEnd, child := cidx }
                some (node_idx, dec3, { rs3 with nodes := rs3.nodes.set node_idx nd })
            else if sb == OP_STOPBY_NEIGHBOR then
              match decodeRuleNode fuel dec2 rs0 with
              | none => none
              | some (cidx, dec3, rs3) =>
                let nd : RuleNode :=
                  { tag := tag, stop_by := .neighbor, child := cidx }
                some (node_idx, dec3, { rs3 with nodes := rs3.nodes.set node_idx nd })
            else if sb == OP_STOPBY_RULE then
              match decodeRuleNode fuel dec2 rs0 with
              | none => none
              | some (sbIdx, dec3, rs3) =>
                match decodeRuleNode fuel dec3 rs3 with
                | none => none
                | some (cidx, dec4, rs4) =>
                  let nd : RuleNode :=
                    { tag := tag, stop_by := .rule, stop_by_rule := sbIdx, child := cidx }
                  some (node_idx, dec4, { rs4 with nodes := rs4.nodes.set node_idx nd })
            else
              -- Not a stopBy modifier: rewind one byte (continue from
              -- dec1, before the probe read) and decode the child.
              match decodeRuleNode fuel dec1 rs0 with
              | none => none
              | some (cidx, dec3, rs3) =>
                let nd : RuleNode :=
                  { tag := tag, stop_by := .neighbor, child := cidx }
                some (node_idx, dec3, { rs3 with nodes := rs3.nodes.set node_idx nd })
        else if op == OP_MATCHES then
          match dec1.readU16 with
          | none => none
          | some (ref, dec2) =>
            let nd : RuleNode :=
              { tag := .op_matches, ref_index := ref }
            some (node_idx, dec2, { rs0 with nodes := rs0.nodes.set node_idx nd })
        else none

end Codesift

namespace Codesift

/-- The constraint-decoding loop of decodeRule.  Heap allocation of the
regex cell is modelled as succeeding (the gpa.create-fails path stores
the constraint with a null regex instead).  On a regex COMPILE failure
the source executes `break`: the loop exits early, the failing
constraint is not stored, and the remaining declared constraints are
left unconsumed in the stream. -/
def decodeConstraints (eng : RegexEngine) :
    Nat → Decoder → CompiledRuleset → Option (Decoder × CompiledRuleset)
  | 0, dec, rs => some (dec, rs)
  | count + 1, dec, rs =>
    if rs.constraints.length ≥ MAX_CONSTRAINTS then none
    else
      match dec.readU8 with
      | none => none
      | some (c_op, dec1) =>
        if c_op != OP_CONSTRAINT then none
        else
          match dec1.readString with
          | none => none
          | some ((n_off, n_len), dec2) =>
            match dec2.readU8 with
            | none => none
            | some (ctype, dec3) =>
              match dec3.readString with
              | none => none
              | some ((p_off, p_len), dec4) =>
                let pat_str := dec4.getString p_off p_len
                match eng.compile pat_str with
                | none => some (dec4, rs)
                | some f =>
                  let c : Constraint :=
                    { metavar_offset := n_off, metavar_len := n_len,
                      constraint_type := ctype, pattern_offset := p_off,
                      pattern_len := p_len, compiled_regex := some f }
                  decodeConstraints eng count dec4
                    { rs with constraints := rs.constraints ++ [c] }

/-- The transform-decoding loop of decodeRule. -/
def decodeTransforms :
    Nat → Decoder → CompiledRuleset → Option (Decoder × CompiledRuleset)
  | 0, dec, rs => some (dec, rs)
  | count + 1, dec, rs =>
    if rs.transforms.length ≥ MAX_TRANSFORMS then none
    else
      match dec.readU8 with
      | none => none
      | some (t_op, dec1) =>
        if t_op != OP_TRANSFORM then none
        else
          match dec1.readString with
          | none => none
          | some ((s_off, s_len), dec2) =>
            match dec2.readU8 with
            | none => none
            | some (op, dec3) =>
              match dec3.readString with
              | none => none
              | some ((a_off, a_len), dec4) =>
                let t : Transform :=
                  { source_offset := s_off, source_len := s_len, op := op,
                    arg_offset := a_off, arg_len := a_len }
                decodeTransforms count dec4
                  { rs with transforms := rs.transforms ++ [t] }

/-- decodeRule: header fields, constraints, transforms, optional fix
(one-byte rewind when absent), then the body rule node. -/
def decodeRule (eng : RegexEngine) (dec : Decoder) (rs : CompiledRuleset)
    (fuel : Nat) : Option (Rule × Decoder × CompiledRuleset) :=
  match dec.readU8 with
  | none => none
  | some (op, dec1) =>
    if op != OP_RULE then none
    else
      match dec1.readString with
      | none => none
      | some ((id_off, id_len), dec2) =>
        match dec2.readU8 with
        | none => none
        | some (sev, dec3) =>
          match dec3.readString with
          | none => none
          | some ((msg_off, msg_len), dec4) =>
            match dec4.readU8 with
            | none => none
            | some (lang, dec5) =>
              match dec5.readU16 with
              | none => none
              | some (constraint_count, dec6) =>
                let cstart := rs.constraints.length
                match decodeConstraints eng constraint_count dec6 rs with
                | none => none
                | some (dec7, rs7) =>
                  match dec7.readU16 with
                  | none => none
                  | some (transform_count, dec8) =>
                    let tstart := rs7.transforms.length
                    match decodeTransforms transform_count dec8 rs7 with
                    | none => none
                    | some (dec9, rs9) =>
                      match dec9.readU8 with
                      | none => none
                      | some (next_byte, dec10) =>
                        match
                          (if next_byte == OP_FIX then
                            match dec10.readString with
                            | none => none
                            | some ((f_off, f_len), dec11) =>
                              some ((f_off, f_len), dec11)
                          else some ((0, 0), dec9))
                        with
                        | none => none
                        | some ((f_off, f_len), dec12) =>
                          match decodeRuleNode fuel dec12 rs9 with
                          | none => none
                          | some (rootIdx, dec13, rs13) =>
                            let rule : Rule :=
                              { id_offset := id_off, id_len := id_len,
                                severity := sev, message_offset := msg_off,
                                message_len := msg_len, language := lang,
                                root_node := rootIdx, fix_offset := f_off,
                                fix_len := f_len, constraints_start := cstart,
                                constraints_count := constraint_count,
                                transforms_start := tstart,
                                transforms_count := transform_count }
                            some (rule, dec13, rs13)

/-- The rule loop of decode. -/
def decodeRules (eng : RegexEngine) (fuel : Nat) :
    Nat → Decoder → CompiledRuleset → Option CompiledRuleset
  | 0, _, rs => some rs
  | count + 1, dec, rs =>
    if rs.rules.length ≥ MAX_RULES then none
    else
      match decodeRule eng dec rs fuel with
      | none => none
      | some (rule, dec1, rs1) =>
        decodeRules eng fuel count dec1 { rs1 with rules := rs1.rules ++ [rule] }

/-- decode: 0xFF header, version, rule count, then the rules.  The
module-level children pool is reset (fresh empty pool). -/
def decode (eng : RegexEngine) (bytecode : List Nat) (fuel : Nat) :
    Option CompiledRuleset :=
  let rs : CompiledRuleset := { bytecode := bytecode }
  let dec : Decoder := ⟨bytecode, 0⟩
  match dec.readU8 with
  | none => none
  | some (header, dec1) =>
    if header != OP_RULESET then none
    else
      match dec1.readU16 with
      | none => none
      | some (_version, dec2) =>
        match dec2.readU16 with
        | none => none
        | some (rule_count, dec3) => decodeRules eng fuel rule_count dec3 rs

end Codesift

namespace Codesift

-- ── Kind / nth-child / regex collection walks (matcher.zig) ───

/-- collectByKind on the gas budget `201 - depth` (see searchMatchesGas
for the exact correspondence of the `depth > 200` guard). -/
def collectByKindGas : Nat → TSNode → List Nat → MatchList → MatchList
  | 0, _, _, ml => ml
  | gas + 1, root, kind, ml =>
    let ml1 :=
      if root.nodeType == kind then
        if isDuplicate ml root.startByte root.endByte then ml
        else MatchList.add ml (matchFromNode root [])
      else ml
    root.namedChildren.foldl (fun acc c => collectByKindGas gas c kind acc) ml1

def collectByKind (root : TSNode) (kind : List Nat) (ml : MatchList)
    (depth : Nat) : MatchList :=
  collectByKindGas (201 - depth) root kind ml

/-- collectByKindAll: same, but walking ALL children (child()/childCount,
which sees extra nodes such as comments). -/
def collectByKindAllGas : Nat → TSNode → List Nat → MatchList → MatchList
  | 0, _, _, ml => ml
  | gas + 1, root, kind, ml =>
    let ml1 :=
      if root.nodeType == kind then
        if isDuplicate ml root.startByte root.endByte then ml
        else MatchList.add ml (matchFromNode root [])
      else ml
    root.childList.foldl (fun acc c => collectByKindAllGas gas c kind acc) ml1

def collectByKindAll (root : TSNode) (kind : List Nat) (ml : MatchList)
    (depth : Nat) : MatchList :=
  collectByKindAllGas (201 - depth) root kind ml

/-- collectByNthChild: a node is collected when its parent's
index-th named child has exactly its byte range (no dedup in the
source); the Option parent models node.parent(), none at the tree
root. -/
def collectByNthChildGas : Nat → Option TSNode → TSNode → Nat → MatchList →
    MatchList
  | 0, _, _, _, ml => ml
  | gas + 1, parentOpt, root, index, ml =>
    let ml1 :=
      match parentOpt with
      | some par =>
        match par.namedChild index with
        | some nth =>
          if nth.startByte == root.startByte && nth.endByte == root.endByte
          then MatchList.add ml (matchFromNode root [])
          else ml
        | none => ml
      | none => ml
    root.namedChildren.foldl
      (fun acc c => collectByNthChildGas gas (some root) c index acc) ml1

def collectByNthChild (root : TSNode) (index : Nat) (ml : MatchList)
    (depth : Nat) : MatchList :=
  collectByNthChildGas (201 - depth) none root index ml

/-- Modelled from the spec: addMatchFromNode is called by
rule_engine.zig's collectByRegex but its definition is not among the
packed matcher sources; per the spec's output invariants for collect
walks, it appends the node's match with empty bindings, deduplicated by
exact byte range, within the fixed capacity. -/
def addMatchFromNode (n : TSNode) (ml : MatchList) : MatchList :=
  if isDuplicate ml n.startByte n.endByte then ml
  else MatchList.add ml (matchFromNode n [])

/-- collectByRegex (rule_engine.zig): walk ALL children; on leaves
(childCount == 0) emit the node when the compiled regex finds a match
in its text (find errors count as no match, folded into the Bool). -/
def collectByRegexGas (f : List Nat → Bool) : Nat → TSNode → MatchList →
    MatchList
  | 0, _, ml => ml
  | gas + 1, root, ml =>
    let ml1 :=
      if root.childCount == 0 then
        if f root.text then addMatchFromNode root ml else ml
      else ml
    root.childList.foldl (fun acc c => collectByRegexGas f gas c acc) ml1

def collectByRegex (f : List Nat → Bool) (root : TSNode) (ml : MatchList)
    (depth : Nat) : MatchList :=
  collectByRegexGas f (201 - depth) root ml

end Codesift

namespace Codesift

-- ── Rule evaluator (rule_engine.zig) ──────────────────────────

/-- The three shared static scratch match lists of the evaluator.
Recursive evaluate calls receive one of these as their output pointer,
so aliasing between an output argument and a scratch is possible and
is modelled exactly (see filterGenericSt / unionInPlaceSt). -/
inductive Buf where
  | child | rel | merge
deriving DecidableEq, Repr

structure EvalState where
  eval_child_temp : MatchList := []
  eval_relational_temp : MatchList := []
  eval_merge_temp : MatchList := []
deriving Repr, Inhabited

def EvalState.read (st : EvalState) : Buf → MatchList
  | .child => st.eval_child_temp
  | .rel => st.eval_relational_temp
  | .merge => st.eval_merge_temp

def EvalState.write (st : EvalState) : Buf → MatchList → EvalState
  | .child, ml => { st with eval_child_temp := ml }
  | .rel, ml => { st with eval_relational_temp := ml }
  | .merge, ml => { st with eval_merge_temp := ml }

def isRelationalTag : RuleNodeTag → Bool
  | .inside | .has | .follows | .precedes | .op_not => true
  | _ => false

-- Filter predicates

def predInside (m ctx : Match) : Bool :=
  ctx.start_byte ≤ m.start_byte && m.end_byte ≤ ctx.end_byte

def predHas (m sub : Match) : Bool :=
  m.start_byte ≤ sub.start_byte && sub.end_byte ≤ m.end_byte

def predExact (m ex : Match) : Bool :=
  m.start_byte == ex.start_byte && m.end_byte == ex.end_byte

def predFollows (m ref_m : Match) : Bool :=
  ref_m.end_byte ≤ m.start_byte

def predPrecedes (m ref_m : Match) : Bool :=
  m.end_byte ≤ ref_m.start_byte

def predOverlaps (m ref_m : Match) : Bool :=
  m.start_byte < ref_m.end_byte && ref_m.start_byte < m.end_byte

/-- filterGeneric when the output and reference pointers ALIAS: the
in-place compaction writes kept entries to positions 0..keep-1 while
the reference scan still covers all `count` positions, so at each step
it sees the kept prefix, then the original (possibly already dropped)
entries from position `keep` up to and including the current one, then
the unprocessed tail.  `kept` is the compacted prefix and `procd` the
processed original prefix. -/
def filterSelfLoop (pred : Match → Match → Bool) (keepOn : Bool) :
    List Match → List Match → List Match → List Match
  | kept, _, [] => kept
  | kept, procd, m :: rest =>
    let scanned := kept ++ procd.drop kept.length ++ m :: rest
    if (scanned.any (fun r => pred m r)) == keepOn then
      filterSelfLoop pred keepOn (kept ++ [m]) (procd ++ [m]) rest
    else
      filterSelfLoop pred keepOn kept (procd ++ [m]) rest

/-- filterGeneric at the buffer level: on distinct buffers it is a
plain in-place filter of out against the fixed reference list; on the
same buffer the compaction interacts with the scan as in
filterSelfLoop. -/
def filterGenericSt (st : EvalState) (outB refsB : Buf)
    (pred : Match → Match → Bool) (keepOn : Bool) : EvalState :=
  if outB = refsB then
    st.write outB (filterSelfLoop pred keepOn [] [] (st.read outB))
  else
    st.write outB ((st.read outB).filter
      (fun m => ((st.read refsB).any (fun r => pred m r)) == keepOn))

def filterInsideInPlace (st : EvalState) (o r : Buf) : EvalState :=
  filterGenericSt st o r predInside true

def filterNotInsideInPlace (st : EvalState) (o r : Buf) : EvalState :=
  filterGenericSt st o r predInside false

def filterHasInPlace (st : EvalState) (o r : Buf) : EvalState :=
  filterGenericSt st o r predHas true

def filterNotHasInPlace (st : EvalState) (o r : Buf) : EvalState :=
  filterGenericSt st o r predHas false

def filterNotInPlace (st : EvalState) (o r : Buf) : EvalState :=
  filterGenericSt st o r predExact false

def filterFollowsInPlace (st : EvalState) (o r : Buf) : EvalState :=
  filterGenericSt st o r predFollows true

def filterNotFollowsInPlace (st : EvalState) (o r : Buf) : EvalState :=
  filterGenericSt st o r predFollows false

def filterPrecedesInPlace (st : EvalState) (o r : Buf) : EvalState :=
  filterGenericSt st o r predPrecedes true

def filterNotPrecedesInPlace (st : EvalState) (o r : Buf) : EvalState :=
  filterGenericSt st o r predPrecedes false

def intersectInPlace (st : EvalState) (o r : Buf) : EvalState :=
  filterGenericSt st o r predOverlaps true

/-- unionInPlace's item loop.  The Zig `for (other.items[0..other.count])`
slice bound is captured at loop entry and `add` only appends past it,
so iterating a snapshot of the other buffer is exact even when the two
buffers alias. -/
def unionLoop : MatchList → List Match → MatchList
  | cur, [] => cur
  | cur, mb :: rest =>
    if cur.any (fun ma => ma.start_byte == mb.start_byte
        && ma.end_byte == mb.end_byte) then
      unionLoop cur rest
    else unionLoop (MatchList.add cur mb) rest

def unionInPlaceSt (st : EvalState) (outB otherB : Buf) : EvalState :=
  st.write outB (unionLoop (st.read outB) (st.read otherB))

/-- applyRelationalFilter: dispatch the in-place filter for a
relational tag (NOT variant when negate). -/
def applyRelationalFilterSt (tag : RuleNodeTag) (st : EvalState)
    (outB refsB : Buf) (negate : Bool) : EvalState :=
  if negate then
    match tag with
    | .inside => filterNotInsideInPlace st outB refsB
    | .has => filterNotHasInPlace st outB refsB
    | .follows => filterNotFollowsInPlace st outB refsB
    | .precedes => filterNotPrecedesInPlace st outB refsB
    | _ => filterNotInPlace st outB refsB
  else
    match tag with
    | .inside => filterInsideInPlace st outB refsB
    | .has => filterHasInPlace st outB refsB
    | .follows => filterFollowsInPlace st outB refsB
    | .precedes => filterPrecedesInPlace st outB refsB
    | _ => st

/-- Compiled-pattern slot table (compiled_slots of main.zig): the
pattern tree stored at each 0-based slot. -/
abbrev Slots := List (Option TSNode)

/-- evaluate: dispatch on the node tag and write the result into the
`out` buffer of the shared scratch state.  Structural on an explicit
recursion-depth budget (the source has no guard here and can in fact
recurse unboundedly through matches-cycles; every theorem below
supplies a budget exceeding its input's nesting depth, where the
embedding agrees with the source). -/
def evaluate (eng : RegexEngine) (rs : CompiledRuleset) (slots : Slots)
    (src : TSNode) : Nat → Nat → Buf → EvalState → Option EvalState
  | 0, _, _, _ => none
  | fuel + 1, node_idx, out, st =>
    let st := st.write out []
    if node_idx ≥ rs.nodes.length then some st
    else
      let node := rs.nodes.getD node_idx default
      match node.tag with
      | .pattern =>
        if node.compiled_handle > 0 ∧ node.compiled_handle ≤ 64 then
          match slots.getD (node.compiled_handle - 1) none with
          | some patRoot =>
            some (st.write out (searchMatches patRoot src (st.read out) 0))
          | none => some st
        else some st
      | .kind =>
        let kind_str := (rs.bytecode.drop node.str_offset).take node.str_len
        if kind_str == strBytes "comment"
            || kind_str == strBytes "html_comment" then
          some (st.write out (collectByKindAll src kind_str (st.read out) 0))
        else
          some (st.write out (collectByKind src kind_str (st.read out) 0))
      | .regex =>
        let regex_str := (rs.bytecode.drop node.str_offset).take node.str_len
        match eng.compile regex_str with
        | none => some st
        | some f =>
          some (st.write out (collectByRegex f src (st.read out) 0))
      | .nth_child =>
        some (st.write out (collectByNthChild src node.index (st.read out) 0))
      | .all =>
        if node.children_count == 0 then some st
        else
          match
            (List.range node.children_count).foldlM
              (fun (acc : EvalState × Bool) ci =>
                let cidx := rs.childrenPool.getD (node.children_start + ci) 0
                let cnode := rs.nodes.getD cidx default
                if isRelationalTag cnode.tag then some acc
                else
                  match evaluate eng rs slots src fuel cidx .child acc.1 with
                  | none => none
                  | some st1 =>
                    if acc.2 then some (intersectInPlace st1 out .child, true)
                    else some (st1.write out (st1.read .child), true))
              (st, false)
          with
          | none => none
          | some (st1, inited) =>
            if !inited then some st1
            else
              (List.range node.children_count).foldlM
                (fun st2 ci =>
                  let cidx := rs.childrenPool.getD (node.children_start + ci) 0
                  let cnode := rs.nodes.getD cidx default
                  if !isRelationalTag cnode.tag then some st2
                  else if cnode.tag == .op_not then
                    let notChild := rs.nodes.getD cnode.child default
                    let evalTarget :=
                      if notChild.tag == .inside || notChild.tag == .has
                          || notChild.tag == .follows
                          || notChild.tag == .precedes
                      then notChild.child else cnode.child
                    match evaluate eng rs slots src fuel evalTarget .rel st2 with
                    | none => none
                    | some st3 =>
                      some (applyRelationalFilterSt notChild.tag st3 out .rel
                        true)
                  else
                    match evaluate eng rs slots src fuel cnode.child .rel st2 with
                    | none => none
                    | some st3 =>
                      some (applyRelationalFilterSt cnode.tag st3 out .rel
                        false))
                st1
      | .any =>
        (List.range node.children_count).foldlM
          (fun st1 ci =>
            let cidx := rs.childrenPool.getD (node.children_start + ci) 0
            match evaluate eng rs slots src fuel cidx .child st1 with
            | none => none
            | some st2 => some (unionInPlaceSt st2 out .child))
          st
      | .op_not => some st
      | .inside | .has | .follows | .precedes =>
        evaluate eng rs slots src fuel node.child out st
      | .op_matches =>
        if node.ref_index < rs.rules.length then
          evaluate eng rs slots src fuel
            (rs.rules.getD node.ref_index default).root_node out st
        else some st

end Codesift

namespace Codesift

-- ── C5: constraint regex compile failure at decode time ───────

/-- A regex engine on which the pattern `(` (byte 40) fails to compile
and every other pattern compiles. -/
def engFailParen : RegexEngine :=
  ⟨fun p => if p == [40] then none else some (fun _ => false)⟩

/-- A regex engine on which every pattern compiles. -/
def engAcceptAll : RegexEngine := ⟨fun _ => some (fun _ => false)⟩

/-- Ruleset bytecode: one rule (id "r", severity error, empty message,
javascript) with TWO constraints — CONSTRAINT X regex "(" and
CONSTRAINT Y regex "a" — no transforms, and body KIND "k". -/
def c5Bytecode : List Nat :=
  [255, 1, 0, 1, 0,
   80, 1, 0, 114, 0, 0, 0, 1,
   2, 0,
   48, 1, 0, 88, 0, 1, 0, 40,
   48, 1, 0, 89, 0, 1, 0, 97,
   0, 0,
   2, 1, 0, 107]

/-- C5: when the FIRST of two constraints carries a regex that fails to
compile, decoding does NOT succeed with an inert constraint — the
constraint loop `break`s, the second constraint's bytes are misread as
the transform count, and the whole decode returns no ruleset.  The same
bytecode decodes fine on an engine that compiles `(`, so the failure is
caused by the compile failure alone. -/
theorem constraint_compile_failure_aborts_decode :
    decode engFailParen c5Bytecode 100 = none
    ∧ (decode engAcceptAll c5Bytecode 100).isSome = true :=
  ⟨rfl, rfl⟩

-- ── C6: `any` with composite children ─────────────────────────

/-- Ruleset bytecode with two rules:
rule 0 (id "r"): body `any(kind "a", kind "b")`;
rule 1 (id "s"): body `any(matches(rule 0), kind "c")`.
Decoded node indexes: 0 = rule-0 any, 1/2 = kind a/b, 3 = rule-1 any,
4 = matches(0), 5 = kind c. -/
def c6Bytecode : List Nat :=
  [255, 1, 0, 2, 0,
   80, 1, 0, 114, 0, 0, 0, 1, 0, 0, 0, 0,
   17, 2, 0, 2, 1, 0, 97, 2, 1, 0, 98,
   80, 1, 0, 115, 0, 0, 0, 1, 0, 0, 0, 0,
   17, 2, 0, 23, 0, 0, 2, 1, 0, 99]

def c6rs : CompiledRuleset := (decode engAcceptAll c6Bytecode 100).getD default

/-- Source tree: three named leaves of kinds "a" (bytes 0-1),
"b" (1-2) and "c" (2-3). -/
def c6src : TSNode :=
  .mk (strBytes "program") (strBytes "abc") 0 3 ⟨0, 0⟩ ⟨0, 3⟩ true
    [.mk [97] [97] 0 1 ⟨0, 0⟩ ⟨0, 1⟩ true [],
     .mk [98] [98] 1 2 ⟨0, 1⟩ ⟨0, 2⟩ true [],
     .mk [99] [99] 2 3 ⟨0, 2⟩ ⟨0, 3⟩ true []]

/-- C6: evaluating rule 1's `any` node (index 3) yields only
[(1,2), (2,3)], although its first child `matches(rule 0)` alone
evaluates to [(0,1), (1,2)] and its second child `kind "c"` to
[(2,3)] — the union of the children's evaluations contains (0,1) but
the result does not.  The nested `any` reached through `matches` gets
`eval_child_temp` both as its output pointer and as its per-child
scratch, so each of its children overwrites the previous one's matches
and the aliased union is a no-op: only the last child survives. -/
theorem any_nested_union_drops_matches :
    (decode engAcceptAll c6Bytecode 100).isSome = true
    ∧ ((evaluate engAcceptAll c6rs [] c6src 20 3 .merge {}).map
        (fun st => (EvalState.read st .merge).map
          (fun m => (m.start_byte, m.end_byte)))) = some [(1, 2), (2, 3)]
    ∧ ((evaluate engAcceptAll c6rs [] c6src 20 4 .merge {}).map
        (fun st => (EvalState.read st .merge).map
          (fun m => (m.start_byte, m.end_byte)))) = some [(0, 1), (1, 2)]
    ∧ ((evaluate engAcceptAll c6rs [] c6src 20 5 .merge {}).map
        (fun st => (EvalState.read st .merge).map
          (fun m => (m.start_byte, m.end_byte)))) = some [(2, 3)] :=
  ⟨rfl, rfl, rfl, rfl⟩

end Codesift
